import Mathlib

/-!
A verification development for the auton-maple routine data model and the
CSV ↔ JSON routine converter (`src/routine/routine_schema.py` and
`src/routine/routine_converter.py`).  The Python code is shallowly embedded:
dataclasses become structures, the class hierarchy rooted at `RoutineNode`
becomes one structure with a payload sum (`NodeKind`), mutation becomes
explicit state passing, and fallible code returns `Except`.  Python `float`
values that flow through the converter are modelled as exact decimals
(`PyFloat`); the literals exercised here are represented exactly.
-/

namespace AutonMaple

/-! ## Python string primitives

Faithful models of the `str` operations used by the converter, written over
`List Char` so that they are easy to reason about.  Only the ASCII fragment
exercised by routine files is modelled. -/

/-- ASCII whitespace as recognised by Python `str.strip()`. -/
def isPySpace (c : Char) : Bool :=
  c = ' ' || c = '\t' || c = '\n' || c = '\r' || c = '\x0b' || c = '\x0c'

/-- Drop trailing characters satisfying `p`. -/
def dropTrailWhile (p : Char → Bool) (l : List Char) : List Char :=
  (l.reverse.dropWhile p).reverse

/-- Python `str.strip()` (no argument): remove leading and trailing whitespace. -/
def pyStrip (s : String) : String :=
  ⟨dropTrailWhile isPySpace (s.data.dropWhile isPySpace)⟩

/-- Python `str.lower()` on the ASCII fragment. -/
def pyLower (s : String) : String :=
  ⟨s.data.map Char.toLower⟩

/-- Python `str.startswith(pre)`. -/
def pyStartsWith (s pre : String) : Bool :=
  pre.data.isPrefixOf s.data

/-- Split a character list at every occurrence of `c` (the separator is
dropped; `n` separators yield `n+1` fields, as Python `str.split(c)` and the
CSV field splitter do). -/
def splitOnCharAux (c : Char) : List Char → List Char → List (List Char)
  | [], acc => [acc.reverse]
  | x :: xs, acc =>
    if x = c then acc.reverse :: splitOnCharAux c xs []
    else splitOnCharAux c xs (x :: acc)

def splitOnChar (c : Char) (l : List Char) : List (List Char) :=
  splitOnCharAux c l []

/-- Python `str.split('=', 1)` restricted to the use in `_parse_params`:
`none` when the string contains no `'='`, otherwise the parts before and
after the first `'='`. -/
def pySplitEqOnce (s : String) : Option (String × String) :=
  let a := s.data.takeWhile (fun c => c ≠ '=')
  match s.data.dropWhile (fun c => c ≠ '=') with
  | [] => none
  | _ :: rest => some (⟨a⟩, ⟨rest⟩)

/-- Digits of a decimal literal read as a natural number; `none` when the
list is empty or contains a non-digit. -/
def parseDigits : List Char → Option Nat
  | [] => none
  | l =>
    if l.all (·.isDigit) then
      some (l.foldl (fun n c => 10 * n + (c.toNat - '0'.toNat)) 0)
    else none

/-- Python `int(s)` on the fragment exercised by routine files: optional
surrounding whitespace, optional sign, decimal digits.  (Underscored
literals and other bases are outside the model's scope.) -/
def pyInt (s : String) : Option Int :=
  match (pyStrip s).data with
  | '-' :: ds => (parseDigits ds).map (fun n => -(n : Int))
  | '+' :: ds => (parseDigits ds).map (fun n => (n : Int))
  | ds => (parseDigits ds).map (fun n => (n : Int))

/-- A Python `float` holding a decimal value, represented exactly as
`num / 10 ^ shift`.  The source code never performs float arithmetic or
numeric comparison on these values — it only parses them from CSV text and
prints them back — so this decimal representation is exact for every value
the converter handles (literals with exponents, `inf` and `nan` are outside
the model's scope). -/
structure PyFloat where
  num : Int
  shift : Nat
  deriving DecidableEq, Repr

/-- Value of the literal `intPart.fracPart`. -/
def decimalValue (intPart fracPart : List Char) : Option PyFloat :=
  if intPart = [] && fracPart = [] then none
  else if (intPart ++ fracPart).all (·.isDigit) then
    match parseDigits (intPart ++ fracPart) with
    | some n => some ⟨(n : Int), fracPart.length⟩
    | none => none
  else none

/-- Python `float(s)` on the fragment exercised by routine files: optional
surrounding whitespace, optional sign, decimal digits with an optional
fractional part (`"100"`, `"100."`, `".5"`, `"3.25"`). -/
def pyFloat (s : String) : Option PyFloat :=
  let core : List Char → Option PyFloat := fun ds =>
    decimalValue (ds.takeWhile (fun c => c ≠ '.'))
      ((ds.dropWhile (fun c => c ≠ '.')).drop 1)
  match (pyStrip s).data with
  | '-' :: ds => (core ds).map (fun f => ⟨-f.num, f.shift⟩)
  | '+' :: ds => core ds
  | ds => core ds

/-- Drop trailing decimal zeros (`100.50` and `100.5` print alike). -/
def stripTrailingZeros : Int → Nat → Int × Nat
  | m, 0 => (m, 0)
  | m, s + 1 => if m % 10 = 0 then stripTrailingZeros (m / 10) s else (m, s + 1)

/-- Python `str(f)` for a float: `100.0` for a whole value, otherwise the
digits with the decimal point `shift` places from the right. -/
def pyFloatStr (f : PyFloat) : String :=
  match stripTrailingZeros f.num f.shift with
  | (m, 0) => toString m ++ ".0"
  | (m, s) =>
    let sign := if m < 0 then "-" else ""
    let ds0 := toString m.natAbs
    let ds := if ds0.length ≤ s then
        String.mk (List.replicate (s + 1 - ds0.length) '0') ++ ds0
      else ds0
    sign ++ String.mk (ds.data.take (ds.data.length - s)) ++ "." ++
      String.mk (ds.data.drop (ds.data.length - s))

/-! ## Python dict operations

`_parse_params` builds a `dict`; insertion order is observable when
`json_to_csv` iterates `params.items()`, so the model keeps a key-unique
association list in insertion order, with assignment overwriting in place. -/

abbrev PyDict := List (String × String)

/-- `d[k] = v`: overwrite in place when the key exists, else append. -/
def dictInsert (d : PyDict) (k v : String) : PyDict :=
  if d.any (fun p => p.1 = k) then
    d.map (fun p => if p.1 = k then (k, v) else p)
  else d ++ [(k, v)]

/-- `d.get(k)` without a default. -/
def dictGet (d : PyDict) (k : String) : Option String :=
  (d.find? (fun p => p.1 = k)).map (·.2)

/-! ## The routine data model (`routine_schema.py`) -/

/-- `NodePosition`: visual position of a node in the flow editor. -/
structure NodePosition where
  x : PyFloat
  y : PyFloat
  deriving DecidableEq, Repr

/-- A whole-number coordinate (the converter lays nodes out on an integer
grid). -/
def pf (n : Int) : PyFloat :=
  ⟨n, 0⟩

/-- `CommandData`: a command within a routine node.  Parameter values are
modelled in their CSV string form, the only form this development
manipulates. -/
structure CommandData where
  type : String
  params : PyDict
  deriving DecidableEq, Repr

/-- `game_position`: the `{x, y}` in-game coordinate dictionary of a point
node, modelled as a record (every producer in the verified code populates
both keys). -/
structure GamePosition where
  x : PyFloat
  y : PyFloat
  deriving DecidableEq, Repr

/-- The variant payload of a node.  Python expresses the variants as
subclasses of `RoutineNode`; the embedding uses one structure with this
payload sum.  `base` is a plain `RoutineNode` instance (the shape
deserialization falls back to for an unrecognized type tag). -/
inductive NodeKind where
  | point (game_position : GamePosition) (commands : List CommandData)
      (frequency : Int) (skip : Bool) (adjust : Bool)
  | label (label : String)
  | jump (target_label : String) (frequency : Int) (skip : Bool)
  | setting (setting_key : String) (setting_value : Option String)
  | base
  deriving DecidableEq, Repr

/-- `RoutineNode` and its subclasses: the shared base fields plus the
variant payload.  `type` is the stored discriminator string — kept separate
from the payload so that the `__post_init__` tag-forcing behaviour is a
provable property rather than true by construction. -/
structure RoutineNode where
  id : String
  type : String
  editor_position : NodePosition
  next : Option String
  kind : NodeKind
  deriving DecidableEq, Repr

/-- `RoutineNode(id, type, editor_position, next)`: base-class constructor
(no `__post_init__`, the passed tag is stored as-is). -/
def RoutineNode.make (id ty : String) (pos : NodePosition)
    (next : Option String := none) : RoutineNode :=
  ⟨id, ty, pos, next, .base⟩

/-- `PointNode(...)`: `__post_init__` overwrites the passed `type` with
`'point'`. -/
def PointNode.make (id ty : String) (pos : NodePosition) (next : Option String)
    (game_position : GamePosition) (commands : List CommandData)
    (frequency : Int) (skip adjust : Bool) : RoutineNode :=
  ⟨id, "point", pos, next, .point game_position commands frequency skip adjust⟩

/-- `LabelNode(...)`: `__post_init__` overwrites the passed `type` with
`'label'`. -/
def LabelNode.make (id ty : String) (pos : NodePosition) (next : Option String)
    (label : String) : RoutineNode :=
  ⟨id, "label", pos, next, .label label⟩

/-- `JumpNode(...)`: `__post_init__` overwrites the passed `type` with
`'jump'`. -/
def JumpNode.make (id ty : String) (pos : NodePosition) (next : Option String)
    (target_label : String) (frequency : Int) (skip : Bool) : RoutineNode :=
  ⟨id, "jump", pos, next, .jump target_label frequency skip⟩

/-- `SettingNode(...)`: `__post_init__` overwrites the passed `type` with
`'setting'`. -/
def SettingNode.make (id ty : String) (pos : NodePosition) (next : Option String)
    (setting_key : String) (setting_value : Option String) : RoutineNode :=
  ⟨id, "setting", pos, next, .setting setting_key setting_value⟩

/-- `RoutineMetadata`. -/
structure RoutineMetadata where
  name : String := "Untitled Routine"
  description : String := ""
  author : String := ""
  version : String := "1.0"
  map_name : String := ""
  created : String := ""
  modified : String := ""
  deriving DecidableEq, Repr

/-- `RoutineFlow`: a complete routine. -/
structure RoutineFlow where
  metadata : RoutineMetadata
  nodes : List RoutineNode
  start_node : String
  deriving DecidableEq, Repr

/-- `RoutineFlow.get_node`: first node with the given id, or `None`. -/
def RoutineFlow.get_node (r : RoutineFlow) (node_id : String) :
    Option RoutineNode :=
  r.nodes.find? (fun n => n.id = node_id)

/-- `RoutineFlow.add_node`: append to the owned sequence. -/
def RoutineFlow.add_node (r : RoutineFlow) (node : RoutineNode) : RoutineFlow :=
  { r with nodes := r.nodes ++ [node] }

/-- `RoutineFlow.remove_node`: drop every node with the id, then clear any
`next` that pointed at it. -/
def RoutineFlow.remove_node (r : RoutineFlow) (node_id : String) : RoutineFlow :=
  let kept := r.nodes.filter (fun n => n.id ≠ node_id)
  { r with
    nodes := kept.map (fun n =>
      if n.next = some node_id then { n with next := none } else n) }

/-- `nodes` after `connect_nodes`: `get_node` returns the first node with the
matching id and its `next` is assigned; later duplicates are untouched. -/
def setNextFirst : List RoutineNode → String → String → List RoutineNode
  | [], _, _ => []
  | n :: rest, from_id, to_id =>
    if n.id = from_id then { n with next := some to_id } :: rest
    else n :: setNextFirst rest from_id to_id

/-- `RoutineFlow.connect_nodes`: set `from_id`'s `next` to `to_id` when
`from_id` exists, else do nothing. -/
def RoutineFlow.connect_nodes (r : RoutineFlow) (from_id to_id : String) :
    RoutineFlow :=
  { r with nodes := setNextFirst r.nodes from_id to_id }

/-! ## Deserialization (`from_dict`)

A serialized node is a JSON object; the embedding lists the three required
base keys, the optional `next`, and one `Option` per variant-specific key
(`none` = key absent).  Passing a dictionary with a key that is not a field
of the dispatched dataclass makes Python's `cls(**data)` raise `TypeError`;
the embedding returns `Except.error` there. -/

structure NodeEntry where
  id : String
  type : String
  editor_position : NodePosition
  next : Option String := none
  game_position : Option GamePosition := none
  commands : Option (List CommandData) := none
  frequency : Option Int := none
  skip : Option Bool := none
  adjust : Option Bool := none
  label : Option String := none
  target_label : Option String := none
  setting_key : Option String := none
  setting_value : Option (Option String) := none
  deriving DecidableEq, Repr

/-- The keys a `RoutineNode(**data)` call does not accept. -/
def NodeEntry.hasNonBaseKey (e : NodeEntry) : Bool :=
  e.game_position.isSome || e.commands.isSome || e.frequency.isSome ||
  e.skip.isSome || e.adjust.isSome || e.label.isSome ||
  e.target_label.isSome || e.setting_key.isSome || e.setting_value.isSome

/-- `RoutineNode.from_dict`: `cls(**data)` on the base dataclass. -/
def RoutineNode.from_dict (e : NodeEntry) : Except String RoutineNode :=
  if e.hasNonBaseKey then .error "TypeError: unexpected keyword argument"
  else .ok (RoutineNode.make e.id e.type e.editor_position e.next)

/-- `PointNode.from_dict`: `commands` defaults to `[]`, the remaining extras
default through the dataclass field defaults (`game_position` defaults to an
empty dict in Python; modelled as the zero position, which no verified
property depends on). -/
def PointNode.from_dict (e : NodeEntry) : Except String RoutineNode :=
  if e.label.isSome || e.target_label.isSome || e.setting_key.isSome ||
      e.setting_value.isSome then
    .error "TypeError: unexpected keyword argument"
  else
    .ok (PointNode.make e.id e.type e.editor_position e.next
      (e.game_position.getD ⟨pf 0, pf 0⟩) (e.commands.getD [])
      (e.frequency.getD 1) (e.skip.getD false) (e.adjust.getD false))

/-- `LabelNode.from_dict`. -/
def LabelNode.from_dict (e : NodeEntry) : Except String RoutineNode :=
  if e.game_position.isSome || e.commands.isSome || e.frequency.isSome ||
      e.skip.isSome || e.adjust.isSome || e.target_label.isSome ||
      e.setting_key.isSome || e.setting_value.isSome then
    .error "TypeError: unexpected keyword argument"
  else .ok (LabelNode.make e.id e.type e.editor_position e.next (e.label.getD ""))

/-- `JumpNode.from_dict`. -/
def JumpNode.from_dict (e : NodeEntry) : Except String RoutineNode :=
  if e.game_position.isSome || e.commands.isSome || e.adjust.isSome ||
      e.label.isSome || e.setting_key.isSome || e.setting_value.isSome then
    .error "TypeError: unexpected keyword argument"
  else
    .ok (JumpNode.make e.id e.type e.editor_position e.next
      (e.target_label.getD "") (e.frequency.getD 1) (e.skip.getD false))

/-- `SettingNode.from_dict`. -/
def SettingNode.from_dict (e : NodeEntry) : Except String RoutineNode :=
  if e.game_position.isSome || e.commands.isSome || e.frequency.isSome ||
      e.skip.isSome || e.adjust.isSome || e.label.isSome ||
      e.target_label.isSome then
    .error "TypeError: unexpected keyword argument"
  else
    .ok (SettingNode.make e.id e.type e.editor_position e.next
      (e.setting_key.getD "") (e.setting_value.getD none))

/-- The per-entry dispatch inside `RoutineFlow.from_dict`: branch on the
`type` discriminator, and fall back to the base class for anything else. -/
def parseNode (e : NodeEntry) : Except String RoutineNode :=
  if e.type = "point" then PointNode.from_dict e
  else if e.type = "label" then LabelNode.from_dict e
  else if e.type = "jump" then JumpNode.from_dict e
  else if e.type = "setting" then SettingNode.from_dict e
  else RoutineNode.from_dict e

/-- The dictionary form of a whole routine file. -/
structure FlowEntry where
  metadata : RoutineMetadata
  nodes : List NodeEntry
  start_node : String
  deriving DecidableEq, Repr

/-- `RoutineFlow.from_dict`. -/
def RoutineFlow.from_dict (d : FlowEntry) : Except String RoutineFlow := do
  let nodes ← d.nodes.mapM parseNode
  return { metadata := d.metadata, nodes := nodes, start_node := d.start_node }

/-- Serialization of a node (`to_dict`/`asdict`): emits exactly the keys of
the node's dataclass. -/
def RoutineNode.to_dict (n : RoutineNode) : NodeEntry :=
  match n.kind with
  | .point gp cmds freq sk adj =>
    { id := n.id, type := n.type, editor_position := n.editor_position,
      next := n.next, game_position := some gp, commands := some cmds,
      frequency := some freq, skip := some sk, adjust := some adj }
  | .label lab =>
    { id := n.id, type := n.type, editor_position := n.editor_position,
      next := n.next, label := some lab }
  | .jump target freq sk =>
    { id := n.id, type := n.type, editor_position := n.editor_position,
      next := n.next, target_label := some target, frequency := some freq,
      skip := some sk }
  | .setting key value =>
    { id := n.id, type := n.type, editor_position := n.editor_position,
      next := n.next, setting_key := some key, setting_value := some value }
  | .base =>
    { id := n.id, type := n.type, editor_position := n.editor_position,
      next := n.next }

/-! ## CSV reading

`csv_to_json` reads the file with `csv.reader(f, skipinitialspace=True)`.
The model covers the routine CSV dialect: comma-separated cells with no
quoting (no routine file in this development contains a quote character),
and `skipinitialspace` removing the run of spaces at the start of every
cell — including the first cell of a line, which is how indentation is
consumed by the reader. -/

/-- One CSV line → list of cells.  An entirely empty line yields the empty
row, as `csv.reader` does. -/
def csvReadLine (line : String) : List String :=
  if line = "" then []
  else (splitOnChar ',' line.data).map (fun f => ⟨f.dropWhile (· = ' ')⟩)

/-- Iterating the lines of saved CSV text (splitting on `'\n'`). -/
def linesOf (s : String) : List String :=
  (splitOnChar '\n' s.data).map (fun l => ⟨l⟩)

/-! ## `RoutineConverter.csv_to_json` -/

/-- `RoutineConverter._parse_params`: `key=value` cells populate a dict,
cells without `'='` are ignored. -/
def parse_params (items : List String) : PyDict :=
  items.foldl (fun d item =>
    match pySplitEqOnce item with
    | some (k, v) => dictInsert d (pyStrip k) (pyStrip v)
    | none => d) []

/-- The synthetic node id `f"node_{counter}"`. -/
def mkNodeId (k : Nat) : String :=
  "node_" ++ toString k

/-- The default label name `f"label_{node_counter}"` (evaluated after the
counter was already incremented for the label node itself). -/
def mkLabelDefault (k : Nat) : String :=
  "label_" ++ toString k

/-- `float(params.get(key, 0))`: absent key gives `0.0`, a malformed literal
raises `ValueError`. -/
def floatOfParam (v : Option String) : Except String PyFloat :=
  match v with
  | none => .ok (pf 0)
  | some s =>
    match pyFloat s with
    | some q => .ok q
    | none => .error "ValueError: could not convert string to float"

/-- `int(params.get(key, d))`. -/
def intOfParam (v : Option String) (d : Int) : Except String Int :=
  match v with
  | none => .ok d
  | some s =>
    match pyInt s with
    | some n => .ok n
    | none => .error "ValueError: invalid literal for int"

/-- `params.get(key, 'False').lower() == 'true'`. -/
def boolOfParam (v : Option String) : Bool :=
  pyLower (v.getD "False") = "true"

/-- Replace the element at index `i` (Python `nodes[i] = f(nodes[i])` through
an object reference). -/
def listModify (l : List RoutineNode) (i : Nat) (f : RoutineNode → RoutineNode) :
    List RoutineNode :=
  match l, i with
  | [], _ => []
  | x :: xs, 0 => f x :: xs
  | x :: xs, n + 1 => x :: listModify xs n f

/-- `current_point_node.commands.append(cmd)` (the aliased object is always a
point node). -/
def appendCommand (cmd : CommandData) (n : RoutineNode) : RoutineNode :=
  match n.kind with
  | .point gp cmds freq sk adj =>
    { n with kind := .point gp (cmds ++ [cmd]) freq sk adj }
  | _ => n

/-- The loop state of `csv_to_json`.  `current_point` holds the index of the
node aliased by Python's `current_point_node` reference. -/
structure ConvState where
  nodes : List RoutineNode
  node_counter : Nat
  previous_node_id : Option String
  start_node_id : Option String
  current_point : Option Nat
  x_position : Int
  deriving DecidableEq, Repr

def ConvState.init : ConvState :=
  { nodes := [], node_counter := 0, previous_node_id := none,
    start_node_id := none, current_point := none, x_position := 100 }

/-- `nodes[-2].next = node_id`. -/
def setPenultNext (ns : List RoutineNode) (node_id : String) :
    List RoutineNode :=
  listModify ns (ns.length - 2) (fun n => { n with next := some node_id })

/-- The tail of each declaration branch: append the node, link the previous
declaration to it, record the start node, advance `previous_node_id` and the
layout cursor. -/
def pushNode (st : ConvState) (counter' : Nat) (node : RoutineNode)
    (isPoint : Bool) : ConvState :=
  let ns1 := st.nodes ++ [node]
  let ns2 :=
    if st.previous_node_id ≠ none ∧ ns1.length > 1 then
      setPenultNext ns1 node.id
    else ns1
  { nodes := ns2
    node_counter := counter'
    previous_node_id := some node.id
    start_node_id :=
      if st.start_node_id = none then some node.id else st.start_node_id
    current_point := if isPoint then some st.nodes.length else none
    x_position := st.x_position + 200 }

/-- One iteration of the row loop of `csv_to_json` (lines 55–160 of
`routine_converter.py`). -/
def convStep (st : ConvState) (row : List String) : Except String ConvState :=
  match row.head? with
  | none => .ok st
  | some c0 =>
    if pyStrip c0 = "" then .ok st
    else
      let first_item := pyStrip c0
      if pyStartsWith first_item "    " ∨ (pyStartsWith c0 " " ∧ first_item = "")
      then
        match st.current_point with
        | some idx =>
          let command_name := pyLower (pyStrip c0)
          let params := parse_params row.tail
          .ok { st with
            nodes := listModify st.nodes idx
              (appendCommand ⟨command_name, params⟩) }
        | none => .ok st
      else
        let symbol := pyLower first_item
        let params := parse_params row.tail
        let node_id := mkNodeId st.node_counter
        let counter' := st.node_counter + 1
        if symbol = "*" ∨ symbol = "point" then do
          let x ← floatOfParam (dictGet params "x")
          let y ← floatOfParam (dictGet params "y")
          let frequency ← intOfParam (dictGet params "frequency") 1
          let skip := boolOfParam (dictGet params "skip")
          let adjust := boolOfParam (dictGet params "adjust")
          let node := PointNode.make node_id "point" ⟨pf st.x_position, pf 100⟩ none
            ⟨x, y⟩ [] frequency skip adjust
          .ok (pushNode st counter' node true)
        else if symbol = "@" ∨ symbol = "label" then
          let label_name := (dictGet params "label").getD (mkLabelDefault counter')
          let node := LabelNode.make node_id "label" ⟨pf st.x_position, pf 100⟩ none
            label_name
          .ok (pushNode st counter' node false)
        else if symbol = ">" ∨ symbol = "jump" ∨ symbol = "goto" then do
          let target := (dictGet params "label").getD ""
          let frequency ← intOfParam (dictGet params "frequency") 1
          let skip := boolOfParam (dictGet params "skip")
          let node := JumpNode.make node_id "jump" ⟨pf st.x_position, pf 100⟩ none
            target frequency skip
          .ok (pushNode st counter' node false)
        else if symbol = "$" ∨ symbol = "setting" then
          let target := (dictGet params "target").getD ""
          let value := (dictGet params "value").getD ""
          let node := SettingNode.make node_id "setting" ⟨pf st.x_position, pf 100⟩ none
            target (some value)
          .ok (pushNode st counter' node false)
        else
          .ok { st with node_counter := counter' }

/-- Fold the row loop over all rows. -/
def runRows (rows : List (List String)) : Except String ConvState :=
  rows.foldlM convStep ConvState.init

/-- The metadata `csv_to_json` builds.  Its name, description, and timestamps
come from the file path and the wall clock, which live outside the
embedding; no verified property inspects them. -/
def convMetadata : RoutineMetadata :=
  { name := "routine", description := "Converted from CSV",
    author := "AutoMaple", version := "1.0",
    created := "", modified := "" }

/-- Python falsiness of the optional string `start_node_id`. -/
def optStrFalsy : Option String → Bool
  | none => true
  | some s => s = ""

/-- `RoutineConverter.csv_to_json` on the lines of the CSV file. -/
def csv_to_json (lines : List String) : Except String RoutineFlow := do
  let st ← runRows (lines.map csvReadLine)
  let s1 :=
    match st.nodes with
    | [] => st.start_node_id
    | n :: _ =>
      if optStrFalsy st.start_node_id then some n.id else st.start_node_id
  let start :=
    match s1 with
    | none => "node_0"
    | some s => if s = "" then "node_0" else s
  return { metadata := convMetadata, nodes := st.nodes, start_node := start }

/-! ## `RoutineConverter.json_to_csv` -/

/-- The `while current_id and current_id not in visited` walk (lines 192–202
of `routine_converter.py`), with an explicit fuel parameter standing for the
number of loop iterations still allowed.  The termination theorem shows the
result is independent of the fuel once it covers the node count, which is
exactly the statement that the Python loop halts. -/
def walkAux (ns : List RoutineNode) :
    Nat → Option String → List String → List RoutineNode →
    List String × List RoutineNode
  | 0, _, visited, acc => (visited, acc)
  | fuel + 1, cur, visited, acc =>
    match cur with
    | none => (visited, acc)
    | some s =>
      if s = "" then (visited, acc)
      else if visited.contains s then (visited, acc)
      else
        match ns.find? (fun n => n.id = s) with
        | none => (visited, acc)
        | some n => walkAux ns fuel n.next (visited ++ [s]) (acc ++ [n])

/-- The fuel `json_to_csv`'s walk is run with: one more than the node count,
always enough (proved below). -/
def walkFuel (r : RoutineFlow) : Nat :=
  r.nodes.length + 1

/-- The walk of a routine: visited ids and walked nodes, in visit order. -/
def routineWalk (r : RoutineFlow) : List String × List RoutineNode :=
  walkAux r.nodes (walkFuel r) (some r.start_node) [] []

/-- `ordered_nodes`: the walked nodes followed by every unvisited node in its
original sequence position. -/
def orderedNodes (r : RoutineFlow) : List RoutineNode :=
  let (visited, walked) := routineWalk r
  walked ++ r.nodes.filter (fun n => ¬ visited.contains n.id)

/-- The CSV lines one node contributes (lines 210–250 of
`routine_converter.py`).  A node that is none of the four subclasses emits
nothing. -/
def nodeLines (n : RoutineNode) : List String :=
  match n.kind with
  | .point gp cmds freq sk adj =>
    let args := ["*", "x=" ++ pyFloatStr gp.x, "y=" ++ pyFloatStr gp.y]
    let args := if freq ≠ 1 then args ++ ["frequency=" ++ toString freq] else args
    let args := if sk then args ++ ["skip=True"] else args
    let args := if adj then args ++ ["adjust=True"] else args
    String.intercalate ", " args ::
      cmds.map (fun cmd =>
        if cmd.params ≠ [] then
          String.intercalate ", "
            (("    " ++ cmd.type) :: cmd.params.map (fun p => p.1 ++ "=" ++ p.2))
        else "    " ++ cmd.type)
  | .label lab => ["", "@, label=" ++ lab]
  | .jump target freq sk =>
    let args := [">", "label=" ++ target]
    let args := if freq ≠ 1 then args ++ ["frequency=" ++ toString freq] else args
    let args := if sk then args ++ ["skip=True"] else args
    [String.intercalate ", " args]
  | .setting key value =>
    ["$, target=" ++ key ++ ", value=" ++
      (match value with | some v => v | none => "None")]
  | .base => []

/-- `RoutineConverter.json_to_csv` from an in-memory routine (the function
itself only loads the routine from disk first). -/
def json_to_csv (r : RoutineFlow) : String :=
  String.intercalate "\n" ((orderedNodes r).map nodeLines).flatten ++ "\n"

/-! ## Concrete fixtures used by witnesses and counterexamples -/

/-- A point node `a`, linked to `b`. -/
def sampleNodeA : RoutineNode :=
  PointNode.make "a" "point" ⟨pf 100, pf 100⟩ (some "b") ⟨pf 100, pf 200⟩
    [⟨"attack", []⟩] 1 false false

/-- A label node `b`. -/
def sampleNodeB : RoutineNode :=
  LabelNode.make "b" "label" ⟨pf 300, pf 100⟩ none "main_loop"

/-- A two-node routine `a → b`. -/
def sampleFlow : RoutineFlow :=
  { metadata := {}, nodes := [sampleNodeA, sampleNodeB], start_node := "a" }

/-! ## Claim theorems -/

/-- **C3.** After `remove_node(id)`, the node sequence contains no node with
that id and no remaining node's `next` equals that id; both effects are part
of the one `remove_node` state transformation, so no state with a dangling
`next` to the removed id is ever returned to a caller. -/
theorem remove_node_clears_references (r : RoutineFlow) (node_id : String) :
    ∀ n ∈ (r.remove_node node_id).nodes, n.id ≠ node_id ∧ n.next ≠ some node_id := by
  intro n hn
  simp only [RoutineFlow.remove_node, List.mem_map, List.mem_filter] at hn
  obtain ⟨m, ⟨_, hmid⟩, rfl⟩ := hn
  by_cases hnext : m.next = some node_id
  · simp only [if_pos hnext]
    exact ⟨by simpa using hmid, by simp⟩
  · simp only [if_neg hnext]
    exact ⟨by simpa using hmid, hnext⟩

/-- Witness for C3 at a concrete routine: removing `"b"` from the two-node
sample leaves node `"a"` with its dangling reference cleared. -/
theorem remove_node_clears_references_witness :
    { sampleNodeA with next := none } ∈ (sampleFlow.remove_node "b").nodes ∧
      ({ sampleNodeA with next := none }).id ≠ "b" ∧
      ({ sampleNodeA with next := none }).next ≠ some "b" :=
  ⟨by decide,
   remove_node_clears_references sampleFlow "b" _ (by decide)⟩

/-- **C10.** `remove_node` keeps the metadata and `start_node` untouched (so
removing the node `start_node` references leaves `start_node` dangling), and
each surviving node keeps every field except that a `next` equal to the
removed id becomes `none`. -/
theorem remove_node_frame (r : RoutineFlow) (node_id : String) :
    (r.remove_node node_id).metadata = r.metadata ∧
    (r.remove_node node_id).start_node = r.start_node ∧
    List.Forall₂ (fun m n =>
        n.id = m.id ∧ n.type = m.type ∧
        n.editor_position = m.editor_position ∧ n.kind = m.kind ∧
        n.next = if m.next = some node_id then none else m.next)
      (r.nodes.filter (fun n => n.id ≠ node_id))
      (r.remove_node node_id).nodes := by
  refine ⟨rfl, rfl, ?_⟩
  show List.Forall₂ _ _ ((r.nodes.filter _).map _)
  rw [List.forall₂_map_right_iff, List.forall₂_same]
  intro m _
  by_cases hnext : m.next = some node_id
  · simp [if_pos hnext]
  · simp [if_neg hnext]

/-- First conjunct of C7: a missing `from_id` makes `connect_nodes` the
identity on the whole routine. -/
theorem setNextFirst_no_match (ns : List RoutineNode) (a b : String)
    (h : ∀ n ∈ ns, n.id ≠ a) : setNextFirst ns a b = ns := by
  induction ns with
  | nil => rfl
  | cons n rest ih =>
    have hn : n.id ≠ a := h n (List.mem_cons_self n rest)
    simp only [setNextFirst, if_neg hn]
    rw [ih (fun m hm => h m (List.mem_cons_of_mem n hm))]

/-- Second conjunct of C7: when `from_id` names a node, the first such node
gets `next := to_id` and every other element is untouched. -/
theorem setNextFirst_first_match (ns₁ : List RoutineNode) (m : RoutineNode)
    (ns₂ : List RoutineNode) (a b : String) (hm : m.id = a)
    (h₁ : ∀ n ∈ ns₁, n.id ≠ a) :
    setNextFirst (ns₁ ++ m :: ns₂) a b =
      ns₁ ++ { m with next := some b } :: ns₂ := by
  induction ns₁ with
  | nil => simp [setNextFirst, hm]
  | cons n rest ih =>
    have hn : n.id ≠ a := h₁ n (List.mem_cons_self n rest)
    simp only [List.cons_append, setNextFirst, if_neg hn]
    exact congrArg (List.cons n) (ih (fun x hx => h₁ x (List.mem_cons_of_mem n hx)))

/-- **C7.** `connect_nodes(a, b)`: when no node has id `a`, the routine is
returned entirely unchanged (no exception, no mutation); when some node has
id `a`, the first such node's `next` becomes `b` and every other part of the
routine — metadata, `start_node`, all other nodes with all their fields — is
unchanged. -/
theorem connect_nodes_spec (r : RoutineFlow) (a b : String) :
    ((∀ n ∈ r.nodes, n.id ≠ a) → r.connect_nodes a b = r) ∧
    (∀ ns₁ m ns₂, r.nodes = ns₁ ++ m :: ns₂ → m.id = a →
      (∀ n ∈ ns₁, n.id ≠ a) →
      r.connect_nodes a b =
        { r with nodes := ns₁ ++ { m with next := some b } :: ns₂ }) := by
  constructor
  · intro h
    show ({ r with nodes := setNextFirst r.nodes a b } : RoutineFlow) = r
    rw [setNextFirst_no_match r.nodes a b h]
  · intro ns₁ m ns₂ hsplit hm h₁
    show ({ r with nodes := setNextFirst r.nodes a b } : RoutineFlow) = _
    rw [hsplit, setNextFirst_first_match ns₁ m ns₂ a b hm h₁]

/-- Witness for C7 at concrete routines: connecting from the absent id `"z"`
changes nothing, and connecting from `"b"` rewires exactly node `"b"`. -/
theorem connect_nodes_spec_witness :
    sampleFlow.connect_nodes "z" "q" = sampleFlow ∧
    sampleFlow.connect_nodes "b" "a" =
      { sampleFlow with
        nodes := [sampleNodeA] ++ { sampleNodeB with next := some "a" } :: [] } :=
  ⟨(connect_nodes_spec sampleFlow "z" "q").1 (by decide),
   (connect_nodes_spec sampleFlow "b" "a").2 [sampleNodeA] sampleNodeB []
     (by decide) (by decide) (by decide)⟩

/-- Every payload-free entry parses, whatever its type tag. -/
theorem parseNode_ok_of_payload_free (e : NodeEntry)
    (h : e.hasNonBaseKey = false) : ∃ n, parseNode e = .ok n := by
  simp only [NodeEntry.hasNonBaseKey, Bool.or_eq_false_iff] at h
  obtain ⟨⟨⟨⟨⟨⟨⟨⟨h₁, h₂⟩, h₃⟩, h₄⟩, h₅⟩, h₆⟩, h₇⟩, h₈⟩, h₉⟩ := h
  unfold parseNode PointNode.from_dict LabelNode.from_dict JumpNode.from_dict
    SettingNode.from_dict RoutineNode.from_dict NodeEntry.hasNonBaseKey
  simp only [h₁, h₂, h₃, h₄, h₅, h₆, h₇, h₈, h₉, Bool.or_self, Bool.false_or,
    Bool.or_false, if_false, Bool.false_eq_true, ite_false]
  split_ifs <;> exact ⟨_, rfl⟩

/-- Lifting `parseNode_ok_of_payload_free` through `mapM`. -/
theorem mapM_parseNode_ok (entries : List NodeEntry)
    (hall : ∀ e ∈ entries, e.hasNonBaseKey = false) :
    ∃ ns, entries.mapM parseNode = .ok ns := by
  induction entries with
  | nil => exact ⟨[], rfl⟩
  | cons e rest ih =>
    obtain ⟨n, hn⟩ :=
      parseNode_ok_of_payload_free e (hall e (List.mem_cons_self e rest))
    obtain ⟨ns, hns⟩ := ih (fun x hx => hall x (List.mem_cons_of_mem e hx))
    exact ⟨n :: ns, by rw [List.mapM_cons, hn, hns]; rfl⟩

/-- **C6.** Deserialization dispatch falls back to the base node shape for an
unrecognized type tag (such as the reserved `"condition"`): the entry becomes
a plain `RoutineNode` instead of raising, and a routine whose entries carry
only the base keys loads successfully whatever their tags are. -/
theorem from_dict_tolerates_unknown_tag :
    (∀ e : NodeEntry, e.hasNonBaseKey = false →
      e.type ≠ "point" → e.type ≠ "label" → e.type ≠ "jump" →
      e.type ≠ "setting" →
      parseNode e = .ok (RoutineNode.make e.id e.type e.editor_position e.next)) ∧
    (∀ d : FlowEntry, (∀ e ∈ d.nodes, e.hasNonBaseKey = false) →
      ∃ flow, RoutineFlow.from_dict d = .ok flow) := by
  constructor
  · intro e hbase h₁ h₂ h₃ h₄
    simp only [parseNode, if_neg h₁, if_neg h₂, if_neg h₃, if_neg h₄,
      RoutineNode.from_dict, hbase]
    rfl
  · intro d hall
    obtain ⟨ns, hns⟩ := mapM_parseNode_ok d.nodes hall
    exact ⟨_, by unfold RoutineFlow.from_dict; rw [hns]; rfl⟩

/-- A base-shaped entry with the reserved `"condition"` tag. -/
def conditionEntry : NodeEntry :=
  { id := "c1", type := "condition", editor_position := ⟨pf 0, pf 0⟩, next := some "a" }

/-- Witness for C6 at a concrete entry: a `"condition"` entry loads as a base
node and a routine holding it loads successfully. -/
theorem from_dict_tolerates_unknown_tag_witness :
    parseNode conditionEntry =
      .ok (RoutineNode.make "c1" "condition" ⟨pf 0, pf 0⟩ (some "a")) ∧
    ∃ flow,
      RoutineFlow.from_dict
        { metadata := {}, nodes := [conditionEntry], start_node := "c1" } =
        .ok flow :=
  ⟨from_dict_tolerates_unknown_tag.1 conditionEntry (by decide) (by decide)
     (by decide) (by decide) (by decide),
   from_dict_tolerates_unknown_tag.2 _ (by decide)⟩

/-- The CSV example of the specification's §8: two points with one indented
command each, a label, and a jump. -/
def specExampleLines : List String :=
  ["*, x=100, y=200",
   "    attack",
   "*, x=300, y=200, frequency=2",
   "    buff",
   "@, label=main_loop",
   ">, label=main_loop",
   ""]

/-- The command list a node carries (`[]` for non-point nodes). -/
def nodeCommands (n : RoutineNode) : List CommandData :=
  match n.kind with
  | .point _ cmds _ _ _ => cmds
  | _ => []

/-- **C1** (evaluation at the failing input).  On the specification's own
example, `csv_to_json` parses the four declaration rows — but both point
nodes come out with an *empty* command list: `row[0].strip()` is applied
before the `startswith('    ')` indentation test (and `skipinitialspace`
already consumed the leading spaces), so the command branch can never fire
and the indented `attack`/`buff` rows are dropped as unknown declaration
rows. -/
theorem csv_to_json_drops_command_rows :
    (csv_to_json specExampleLines).toOption.map
        (fun f => f.nodes.map (fun n => (n.type, nodeCommands n))) =
      some [("point", []), ("point", []), ("label", []), ("jump", [])] := by
  decide

/-- A one-point routine whose point carries one command. -/
def onePointFlow : RoutineFlow :=
  { metadata := {}, start_node := "p0",
    nodes := [PointNode.make "p0" "point" ⟨pf 100, pf 100⟩ none ⟨pf 100, pf 200⟩
      [⟨"attack", []⟩] 1 false false] }

/-- **C2** (evaluation at the failing input).  Round-tripping a routine with
one point carrying the single command `attack` loses the command:
`json_to_csv` emits the indented command line, and `csv_to_json` drops it
(the dead indentation test again), so the per-node command lists are not
preserved. -/
theorem roundtrip_loses_commands :
    onePointFlow.nodes.map nodeCommands = [[⟨"attack", []⟩]] ∧
    json_to_csv onePointFlow = "*, x=100.0, y=200.0\n    attack\n" ∧
    (csv_to_json (linesOf (json_to_csv onePointFlow))).toOption.map
        (fun f => f.nodes.map (fun n => (n.type, nodeCommands n))) =
      some [("point", [])] := by
  refine ⟨by decide, by decide, by decide⟩

/-- A routine with a duplicated node id `"b"` and a self-cycle on the start
node `"a"`. -/
def dupIdFlow : RoutineFlow :=
  { metadata := {}, start_node := "a",
    nodes :=
      [PointNode.make "b" "point" ⟨pf 0, pf 0⟩ none ⟨pf 1, pf 1⟩ [] 1 false false,
       PointNode.make "b" "point" ⟨pf 0, pf 0⟩ none ⟨pf 1, pf 1⟩ [] 1 false false,
       PointNode.make "a" "point" ⟨pf 0, pf 0⟩ (some "a") ⟨pf 2, pf 2⟩ [] 1 false false] }

/-- **C4** (counterexample).  A routine whose `next` links form a cycle
reachable from `start_node` but whose stored sequence duplicates the id
`"b"`: the walk terminates, yet the orphan-appending pass emits both `"b"`
nodes, so the id `"b"` contributes two declaration lines to the emitted
order, refuting the claim as stated for routines with duplicate ids. -/
theorem json_to_csv_duplicate_id_twice :
    dupIdFlow.start_node = "a" ∧
    (dupIdFlow.get_node "a").map (·.next) = some (some "a") ∧
    ((orderedNodes dupIdFlow).map (·.id)) = ["a", "b", "b"] ∧
    (((orderedNodes dupIdFlow).map nodeLines).flatten.count
      "*, x=1.0, y=1.0") = 2 := by
  refine ⟨rfl, by decide, by decide, by decide⟩

/-! ## Termination and coverage of the `json_to_csv` walk -/

/-- Node ids not yet visited: the walk's termination measure. -/
def walkMeasure (ns : List RoutineNode) (visited : List String) : Nat :=
  ((ns.map (·.id)).toFinset \ visited.toFinset).card

/-- Visiting a fresh id from the routine strictly shrinks the measure. -/
theorem walkMeasure_lt (ns : List RoutineNode) (visited : List String)
    (s : String) (hs : s ∈ ns.map (·.id)) (hv : s ∉ visited) :
    walkMeasure ns (visited ++ [s]) < walkMeasure ns visited := by
  unfold walkMeasure
  have hmem : s ∈ (ns.map (·.id)).toFinset \ visited.toFinset := by
    simp [List.mem_toFinset, hs, hv]
  have hsub : (ns.map (·.id)).toFinset \ (visited ++ [s]).toFinset =
      ((ns.map (·.id)).toFinset \ visited.toFinset).erase s := by
    ext a
    simp only [List.toFinset_append, Finset.mem_sdiff, Finset.mem_union,
      Finset.mem_erase, List.toFinset_cons, List.toFinset_nil,
      insert_emptyc_eq, Finset.mem_insert, Finset.mem_singleton]
    tauto
  rw [hsub]
  exact Finset.card_erase_lt_of_mem hmem

/-- When every routine id is already visited, the loop body stops at once,
whatever fuel remains. -/
theorem walk_stop_of_measure_zero (ns : List RoutineNode)
    (visited : List String) (h : walkMeasure ns visited = 0) :
    ∀ (f : Nat) (cur : Option String) (acc : List RoutineNode),
      walkAux ns f cur visited acc = (visited, acc) := by
  intro f cur acc
  cases f with
  | zero => rfl
  | succ f =>
    cases cur with
    | none => rfl
    | some s =>
      simp only [walkAux]
      by_cases hs : s = ""
      · simp [hs]
      · simp only [if_neg hs]
        by_cases hv : visited.contains s
        · rw [if_pos hv]
        · simp only [hv, Bool.false_eq_true, if_false]
          cases hfind : ns.find? (fun n => n.id = s) with
          | none => rfl
          | some n =>
            exfalso
            have hid : n.id = s := by
              have := List.find?_some hfind
              simpa using this
            have hmemn : n ∈ ns := List.mem_of_find?_eq_some hfind
            have hids : s ∈ ns.map (·.id) :=
              hid ▸ List.mem_map_of_mem (·.id) hmemn
            have hnotv : s ∉ visited := by simpa using hv
            have : s ∈ (ns.map (·.id)).toFinset \ visited.toFinset := by
              simp [List.mem_toFinset, hids, hnotv]
            have hpos : 0 < walkMeasure ns visited :=
              Finset.card_pos.mpr ⟨s, this⟩
            omega

/-- The walk's result does not depend on the fuel once the fuel covers the
measure: the Python `while` loop terminates. -/
theorem walk_stable (ns : List RoutineNode) :
    ∀ (m f₁ f₂ : Nat) (cur : Option String) (visited : List String)
      (acc : List RoutineNode),
      walkMeasure ns visited ≤ m → m ≤ f₁ → m ≤ f₂ →
      walkAux ns f₁ cur visited acc = walkAux ns f₂ cur visited acc := by
  intro m
  induction m with
  | zero =>
    intro f₁ f₂ cur visited acc hm _ _
    have h0 : walkMeasure ns visited = 0 := Nat.le_zero.mp hm
    rw [walk_stop_of_measure_zero ns visited h0 f₁ cur acc,
      walk_stop_of_measure_zero ns visited h0 f₂ cur acc]
  | succ m ih =>
    intro f₁ f₂ cur visited acc hm h₁ h₂
    match f₁, h₁ with
    | f₁ + 1, h₁ =>
      match f₂, h₂ with
      | f₂ + 1, h₂ =>
        cases cur with
        | none => rfl
        | some s =>
          simp only [walkAux]
          by_cases hs : s = ""
          · simp [hs]
          · simp only [if_neg hs]
            by_cases hv : visited.contains s
            · simp only [if_pos hv]
            · simp only [hv, Bool.false_eq_true, if_false]
              cases hfind : ns.find? (fun n => n.id = s) with
              | none => rfl
              | some n =>
                have hid : n.id = s := by
                  have := List.find?_some hfind
                  simpa using this
                have hids : s ∈ ns.map (·.id) :=
                  hid ▸ List.mem_map_of_mem (·.id) (List.mem_of_find?_eq_some hfind)
                have hnotv : s ∉ visited := by simpa using hv
                have hlt := walkMeasure_lt ns visited s hids hnotv
                exact ih f₁ f₂ n.next (visited ++ [s]) (acc ++ [n])
                  (by omega) (by omega) (by omega)

/-- What the walk accumulates: the new visited ids are exactly the ids of the
newly walked nodes (in order), every walked node comes from the routine's
sequence, and the visited list stays duplicate-free. -/
theorem walkAux_spec (ns : List RoutineNode) :
    ∀ (f : Nat) (cur : Option String) (visited : List String)
      (acc : List RoutineNode), visited.Nodup →
      ∃ δ ω, walkAux ns f cur visited acc = (visited ++ δ, acc ++ ω) ∧
        ω.map (·.id) = δ ∧ (∀ n ∈ ω, n ∈ ns) ∧ (visited ++ δ).Nodup := by
  intro f
  induction f with
  | zero =>
    intro cur visited acc hnd
    exact ⟨[], [], by simp [walkAux], rfl, by simp, by simpa⟩
  | succ f ih =>
    intro cur visited acc hnd
    cases cur with
    | none => exact ⟨[], [], by simp [walkAux], rfl, by simp, by simpa⟩
    | some s =>
      by_cases hs : s = ""
      · exact ⟨[], [], by simp [walkAux, hs], rfl, by simp, by simpa⟩
      · by_cases hv : visited.contains s
        · refine ⟨[], [], ?_, rfl, by simp, by simpa⟩
          simp only [walkAux, if_neg hs, if_pos hv]
          simp
        · cases hfind : ns.find? (fun n => n.id = s) with
          | none =>
            refine ⟨[], [], ?_, rfl, by simp, by simpa⟩
            simp only [walkAux, if_neg hs, hv, Bool.false_eq_true, if_false,
              hfind]
            simp
          | some n =>
            have hid : n.id = s := by
              have := List.find?_some hfind
              simpa using this
            have hnotv : s ∉ visited := by simpa using hv
            have hnd' : (visited ++ [s]).Nodup := by
              simp [List.nodup_append, hnd, hnotv]
            obtain ⟨δ, ω, heq, hmap, hmem, hnodup⟩ :=
              ih n.next (visited ++ [s]) (acc ++ [n]) hnd'
            refine ⟨s :: δ, n :: ω, ?_, ?_, ?_, ?_⟩
            · simp only [walkAux, if_neg hs, hv, Bool.false_eq_true, if_false,
                hfind]
              rw [heq]
              simp
            · simp [hmap, hid]
            · intro x hx
              rcases List.mem_cons.mp hx with h | h
              · exact h ▸ List.mem_of_find?_eq_some hfind
              · exact hmem x h
            · simpa using hnodup

/-- **C4** (amended: unique node ids assumed for the at-most-once part).
The `json_to_csv` walk of any routine — cyclic `next` chains included — is
unchanged by any fuel beyond `nodes.length + 1` iterations, i.e. the loop
terminates; and when node ids are unique, each id occurs at most once in the
emitted node order (a revisited node is not re-emitted). -/
theorem json_to_csv_terminates_and_unique (r : RoutineFlow) :
    (∀ f, walkFuel r ≤ f →
      walkAux r.nodes f (some r.start_node) [] [] = routineWalk r) ∧
    ((r.nodes.map (·.id)).Nodup → ((orderedNodes r).map (·.id)).Nodup) := by
  constructor
  · intro f hf
    have hmeas : walkMeasure r.nodes [] ≤ r.nodes.length := by
      unfold walkMeasure
      calc ((r.nodes.map (·.id)).toFinset \ ([] : List String).toFinset).card
          ≤ (r.nodes.map (·.id)).toFinset.card :=
            Finset.card_le_card (Finset.sdiff_subset)
        _ ≤ (r.nodes.map (·.id)).length := (r.nodes.map (·.id)).toFinset_card_le
        _ = r.nodes.length := List.length_map r.nodes (·.id)
    exact walk_stable r.nodes r.nodes.length f (walkFuel r)
      (some r.start_node) [] [] hmeas (by unfold walkFuel at hf; omega)
      (by unfold walkFuel; omega)
  · intro hnd
    obtain ⟨δ, ω, heq, hmap, hmem, hnodup⟩ :=
      walkAux_spec r.nodes (walkFuel r) (some r.start_node) [] [] List.nodup_nil
    have hwalk : routineWalk r = (δ, ω) := by simpa [routineWalk] using heq
    have hδ : δ.Nodup := by simpa using hnodup
    have hord : orderedNodes r =
        ω ++ r.nodes.filter (fun n => ¬ δ.contains n.id) := by
      simp [orderedNodes, hwalk]
    rw [hord, List.map_append]
    rw [List.nodup_append]
    refine ⟨hmap ▸ hδ, ?_, ?_⟩
    · have hsub : (r.nodes.filter (fun n => ¬ δ.contains n.id)).map (·.id)
          |>.Sublist (r.nodes.map (·.id)) :=
        (List.filter_sublist r.nodes).map (·.id)
      exact hsub.nodup hnd
    · intro a ha hb
      rw [hmap] at ha
      simp only [List.mem_map, List.mem_filter] at hb
      obtain ⟨n, ⟨_, hn⟩, rfl⟩ := hb
      simp only [decide_not, Bool.not_eq_eq_eq_not, Bool.not_true,
        decide_eq_false_iff_not] at hn
      exact hn (by simpa using ha)

/-- A two-node cyclic routine with unique ids (`a → b → a`). -/
def cycleFlow : RoutineFlow :=
  { metadata := {}, start_node := "a",
    nodes :=
      [PointNode.make "a" "point" ⟨pf 0, pf 0⟩ (some "b") ⟨pf 1, pf 1⟩ [] 1 false false,
       PointNode.make "b" "point" ⟨pf 0, pf 0⟩ (some "a") ⟨pf 2, pf 2⟩ [] 1 false false] }

/-- Witness for the amended C4 on a concrete cyclic routine: extra fuel does
not change the walk, and every id is emitted at most once. -/
theorem json_to_csv_terminates_and_unique_witness :
    walkAux cycleFlow.nodes 10 (some cycleFlow.start_node) [] [] =
      routineWalk cycleFlow ∧
    ((orderedNodes cycleFlow).map (·.id)).Nodup :=
  ⟨(json_to_csv_terminates_and_unique cycleFlow).1 10 (by decide),
   (json_to_csv_terminates_and_unique cycleFlow).2 (by decide)⟩

/-- **C5.** With unique node ids, every node of the routine appears in the
emitted order: the walked prefix is followed by exactly the unvisited nodes,
kept in their original sequence order (a sublist of the stored sequence);
and when `start_node` references no existing node the emitted order is
exactly the stored sequence, with no error raised. -/
theorem unreached_nodes_appended (r : RoutineFlow)
    (hnd : (r.nodes.map (·.id)).Nodup) :
    (∀ n ∈ r.nodes, n ∈ orderedNodes r) ∧
    orderedNodes r =
      (routineWalk r).2 ++
        r.nodes.filter (fun n => ¬ (routineWalk r).1.contains n.id) ∧
    (r.nodes.filter (fun n => ¬ (routineWalk r).1.contains n.id)).Sublist
      r.nodes ∧
    (r.get_node r.start_node = none → orderedNodes r = r.nodes) := by
  obtain ⟨δ, ω, heq, hmap, hmem, hnodup⟩ :=
    walkAux_spec r.nodes (walkFuel r) (some r.start_node) [] [] List.nodup_nil
  have hwalk : routineWalk r = (δ, ω) := by simpa [routineWalk] using heq
  have hord : orderedNodes r =
      ω ++ r.nodes.filter (fun n => ¬ δ.contains n.id) := by
    simp [orderedNodes, hwalk]
  refine ⟨?_, ?_, ?_, ?_⟩
  · intro n hn
    by_cases hc : δ.contains n.id
    · have hidδ : n.id ∈ δ := by simpa using hc
      rw [← hmap] at hidδ
      obtain ⟨m, hmω, hmid⟩ := List.mem_map.mp hidδ
      have hmns : m ∈ r.nodes := hmem m hmω
      have : m = n := List.inj_on_of_nodup_map hnd hmns hn hmid
      rw [hord]
      exact List.mem_append_left _ (this ▸ hmω)
    · rw [hord]
      refine List.mem_append_right _ (List.mem_filter.mpr ⟨hn, ?_⟩)
      simpa using hc
  · rw [hord, hwalk]
  · rw [hwalk]
    exact List.filter_sublist r.nodes
  · intro hnone
    have hstep : routineWalk r = ([], []) := by
      unfold routineWalk walkFuel
      simp only [walkAux]
      by_cases hs : r.start_node = ""
      · simp [hs]
      · simp only [if_neg hs]
        have : (([] : List String).contains r.start_node) = false := rfl
        simp only [this, Bool.false_eq_true, if_false]
        have hfind : r.nodes.find? (fun n => n.id = r.start_node) = none := by
          simpa [RoutineFlow.get_node] using hnone
        simp [hfind]
    have : orderedNodes r = r.nodes.filter (fun n => True) := by
      simp [orderedNodes, hstep]
    rw [orderedNodes, hstep]
    simp

/-- The sample routine with a dangling `start_node`. -/
def danglingStartFlow : RoutineFlow :=
  { sampleFlow with start_node := "zzz" }

/-- Witness for C5 at a concrete routine whose `start_node` references no
node: both its nodes appear in the emitted order, which equals the stored
sequence. -/
theorem unreached_nodes_appended_witness :
    sampleNodeA ∈ orderedNodes danglingStartFlow ∧
    orderedNodes danglingStartFlow = danglingStartFlow.nodes :=
  ⟨(unreached_nodes_appended danglingStartFlow (by decide)).1 sampleNodeA
     (by decide),
   (unreached_nodes_appended danglingStartFlow (by decide)).2.2.2 (by decide)⟩

/-! ## The `csv_to_json` loop invariant

Machinery for C8 and C9: the row loop builds an unbroken `next` chain of
freshly-numbered, correctly-tagged nodes. -/

/-- The tag a subclass instance must carry after `__post_init__` (no
constraint on plain base instances). -/
def WellTagged (n : RoutineNode) : Prop :=
  match n.kind with
  | .point _ _ _ _ _ => n.type = "point"
  | .label _ => n.type = "label"
  | .jump _ _ _ => n.type = "jump"
  | .setting _ _ => n.type = "setting"
  | .base => True

theorem wellTagged_setNext (n : RoutineNode) (x : Option String)
    (h : WellTagged n) : WellTagged { n with next := x } := by
  cases n with
  | mk id ty pos nx kind => cases kind <;> exact h

/-- The node kind a row produces: `none` for blank rows, command rows (which
never produce nodes) and unrecognized symbols. -/
def rowTag (row : List String) : Option String :=
  match row.head? with
  | none => none
  | some c0 =>
    if pyStrip c0 = "" then none
    else
      let symbol := pyLower (pyStrip c0)
      if symbol = "*" ∨ symbol = "point" then some "point"
      else if symbol = "@" ∨ symbol = "label" then some "label"
      else if symbol = ">" ∨ symbol = "jump" ∨ symbol = "goto" then some "jump"
      else if symbol = "$" ∨ symbol = "setting" then some "setting"
      else none

/-- The first element surviving `dropWhile p` fails `p`. -/
theorem dropWhile_head_false {α} (p : α → Bool) :
    ∀ (l : List α) (a : α) (t : List α), l.dropWhile p = a :: t → p a = false := by
  intro l
  induction l with
  | nil => intro a t h; exact absurd h (by simp)
  | cons x xs ih =>
    intro a t h
    by_cases hx : p x
    · rw [List.dropWhile_cons_of_pos hx] at h
      exact ih a t h
    · rw [List.dropWhile_cons_of_neg hx] at h
      obtain ⟨rfl, -⟩ := List.cons.inj h
      simpa using hx

/-- `dropTrailWhile` keeps a prefix of its input. -/
theorem dropTrailWhile_prefix (p : Char → Bool) (l : List Char) :
    dropTrailWhile p l <+: l := by
  have h : l.reverse.dropWhile p <:+ l.reverse := List.dropWhile_suffix p
  have := List.reverse_prefix.mpr h
  simpa [dropTrailWhile] using this

/-- A nonempty stripped string never begins with a space. -/
theorem pyStrip_head_not_space (s : String) (c : Char) (t : List Char)
    (h : (pyStrip s).data = c :: t) : isPySpace c = false := by
  have hpre : dropTrailWhile isPySpace (s.data.dropWhile isPySpace) <+:
      s.data.dropWhile isPySpace := dropTrailWhile_prefix _ _
  have hdata : dropTrailWhile isPySpace (s.data.dropWhile isPySpace) = c :: t := h
  obtain ⟨r, hr⟩ := hpre
  rw [hdata] at hr
  exact dropWhile_head_false isPySpace s.data c (t ++ r) hr.symm

/-- The indentation test of `csv_to_json` line 62 can never succeed past the
blank-row guard: `first_item` has already been stripped, so it cannot start
with four spaces, and the second disjunct needs it empty. -/
theorem indent_cond_false (c0 : String) (h : pyStrip c0 ≠ "") :
    ¬ (pyStartsWith (pyStrip c0) "    " ∨
        (pyStartsWith c0 " " ∧ pyStrip c0 = "")) := by
  rintro (h1 | ⟨-, h2⟩)
  · have hpre : ("    " : String).data <+: (pyStrip c0).data :=
      List.isPrefixOf_iff_prefix.mp h1
    have hdata : ("    " : String).data = [' ', ' ', ' ', ' '] := rfl
    rw [hdata] at hpre
    obtain ⟨r, hr⟩ := hpre
    have hhead : (pyStrip c0).data = ' ' :: (' ' :: ' ' :: ' ' :: r) := hr.symm
    have := pyStrip_head_not_space c0 ' ' _ hhead
    simp [isPySpace] at this
  · exact h h2

/-- `mkNodeId` never yields the empty (Python-falsy) string. -/
theorem mkNodeId_ne_empty (k : Nat) : mkNodeId k ≠ "" := by
  intro hcontra
  have hl := congrArg String.length hcontra
  rw [mkNodeId, String.length_append] at hl
  have h5 : ("node_" : String).length = 5 := rfl
  rw [h5] at hl
  simp at hl

/-- `listModify` at the junction index rewrites exactly the junction
element. -/
theorem listModify_append (l : List RoutineNode) (y : RoutineNode)
    (rest : List RoutineNode) (f : RoutineNode → RoutineNode) :
    listModify (l ++ y :: rest) l.length f = l ++ f y :: rest := by
  induction l with
  | nil => rfl
  | cons x xs ih => simpa [listModify] using ih

/-- `nodes[-2].next = node_id` after appending `x` to a nonempty list: the
old final element is rewired, nothing else moves. -/
theorem setPenultNext_concat (l : List RoutineNode) (last x : RoutineNode)
    (nid : String) :
    setPenultNext ((l ++ [last]) ++ [x]) nid =
      l ++ [{ last with next := some nid }, x] := by
  have hlen : ((l ++ [last]) ++ [x]).length - 2 = l.length := by
    simp
  have hshape : (l ++ [last]) ++ [x] = l ++ last :: [x] := by
    simp
  rw [setPenultNext, hlen, hshape, listModify_append]

/-- The invariant the row loop of `csv_to_json` maintains. -/
structure ConvInv (s : ConvState) : Prop where
  ids : ∃ ks : List Nat, List.Chain' (· < ·) ks ∧
    s.nodes.map (·.id) = ks.map mkNodeId ∧ ∀ k ∈ ks, k < s.node_counter
  chain : List.Chain' (fun a b => a.next = some b.id) s.nodes
  start : s.start_node_id = (s.nodes.map (·.id)).head?
  prev : s.previous_node_id = (s.nodes.map (·.id)).getLast?
  tagged : ∀ n ∈ s.nodes, WellTagged n

theorem convInv_init : ConvInv ConvState.init :=
  ⟨⟨[], List.chain'_nil, rfl, fun k hk => absurd hk (List.not_mem_nil k)⟩,
   List.chain'_nil, rfl, rfl, fun n hn => absurd hn (List.not_mem_nil n)⟩

/-- Appending a strictly larger element keeps a `<`-chain a chain. -/
theorem chain_lt_concat (ks : List Nat) (c : Nat)
    (hc : List.Chain' (· < ·) ks) (hb : ∀ k ∈ ks, k < c) :
    List.Chain' (· < ·) (ks ++ [c]) := by
  rw [List.chain'_append]
  refine ⟨hc, List.chain'_singleton c, ?_⟩
  intro a ha b hb'
  simp only [List.head?_cons, Option.mem_def, Option.some.injEq] at hb'
  exact hb' ▸ hb a (List.mem_of_mem_getLast? ha)

/-- The declaration tail of the loop body preserves the invariant and
appends exactly the new node's tag to the type trace. -/
theorem pushNode_inv (st : ConvState) (node : RoutineNode) (isPoint : Bool)
    (hinv : ConvInv st) (hid : node.id = mkNodeId st.node_counter)
    (hnext : node.next = none) (htag : WellTagged node) :
    ConvInv (pushNode st (st.node_counter + 1) node isPoint) ∧
    (pushNode st (st.node_counter + 1) node isPoint).nodes.map (·.type) =
      st.nodes.map (·.type) ++ [node.type] := by
  obtain ⟨ks, hks, hmap, hbound⟩ := hinv.ids
  have hcounter : (pushNode st (st.node_counter + 1) node isPoint).node_counter
      = st.node_counter + 1 := rfl
  have hstarteq : (pushNode st (st.node_counter + 1) node isPoint).start_node_id
      = (if st.start_node_id = none then some node.id else st.start_node_id) :=
    rfl
  have hpreveq : ConvState.previous_node_id
      (pushNode st (st.node_counter + 1) node isPoint) = some node.id := rfl
  rcases List.eq_nil_or_concat st.nodes with hnil | ⟨l, last, hconcat⟩
  · -- first declaration row: no previous node to rewire
    have hprev : st.previous_node_id = none := by
      rw [hinv.prev, hnil]; rfl
    have hstart : st.start_node_id = none := by
      rw [hinv.start, hnil]; rfl
    have hguard : ¬ (st.previous_node_id ≠ none ∧
        (st.nodes ++ [node]).length > 1) := by
      rintro ⟨hne, -⟩; exact hne hprev
    have hnodes : (pushNode st (st.node_counter + 1) node isPoint).nodes
        = [node] := by
      have h0 : (pushNode st (st.node_counter + 1) node isPoint).nodes =
          st.nodes ++ [node] := by
        simp only [pushNode, if_neg hguard]
      rw [h0, hnil, List.nil_append]
    constructor
    · refine ⟨⟨[st.node_counter], ?_, ?_, ?_⟩, ?_, ?_, ?_, ?_⟩
      · exact List.chain'_singleton _
      · rw [hnodes]; simp [hid]
      · intro k hk
        simp only [List.mem_singleton] at hk
        rw [hcounter]
        omega
      · rw [hnodes]; exact List.chain'_singleton _
      · rw [hstarteq, hnodes, if_pos hstart]; simp
      · rw [hpreveq, hnodes]; simp
      · intro n hn
        rw [hnodes] at hn
        simp only [List.mem_singleton] at hn
        exact hn ▸ htag
    · rw [hnodes, hnil]; rfl
  · -- later declaration row: `nodes[-2].next = node_id`
    have hlast_mem : last ∈ st.nodes := by rw [hconcat]; simp
    have hprev : st.previous_node_id = some last.id := by
      rw [hinv.prev, hconcat]
      simp
    have hguard : st.previous_node_id ≠ none ∧
        (st.nodes ++ [node]).length > 1 := by
      constructor
      · rw [hprev]; simp
      · rw [hconcat]; simp
    have hns1 : st.nodes ++ [node] = (l ++ [last]) ++ [node] := by
      rw [hconcat, List.concat_eq_append]
    have hnodes : (pushNode st (st.node_counter + 1) node isPoint).nodes =
        l ++ [{ last with next := some node.id }, node] := by
      have h0 : (pushNode st (st.node_counter + 1) node isPoint).nodes =
          setPenultNext (st.nodes ++ [node]) node.id := by
        simp only [pushNode, if_pos hguard]
      rw [h0, hns1, setPenultNext_concat]
    have hids_old : l.map (·.id) ++ [last.id] = ks.map mkNodeId := by
      rw [← hmap, hconcat]; simp
    constructor
    · refine ⟨⟨ks ++ [st.node_counter], ?_, ?_, ?_⟩, ?_, ?_, ?_, ?_⟩
      · exact chain_lt_concat ks st.node_counter hks hbound
      · rw [hnodes]
        simp only [List.map_append, List.map_cons, List.map_nil, hid]
        rw [← hids_old]
        simp
      · intro k hk
        rw [hcounter]
        rcases List.mem_append.mp hk with h | h
        · have := hbound k h; omega
        · simp only [List.mem_singleton] at h; omega
      · -- the `next` chain stays unbroken
        rw [hnodes]
        have hold := hinv.chain
        rw [hconcat, List.concat_eq_append, List.chain'_append] at hold
        obtain ⟨hl, -, hjunction⟩ := hold
        rw [List.chain'_append]
        refine ⟨hl, ?_, ?_⟩
        · rw [show [{ last with next := some node.id }, node] =
            [{ last with next := some node.id }] ++ [node] from rfl,
            List.chain'_append]
          refine ⟨List.chain'_singleton _, List.chain'_singleton _, ?_⟩
          intro a ha b hb'
          simp only [List.getLast?_singleton, Option.mem_def,
            Option.some.injEq] at ha
          simp only [List.head?_cons, Option.mem_def, Option.some.injEq] at hb'
          rw [← ha, ← hb']
        · intro a ha b hb'
          simp only [List.head?_cons, Option.mem_def, Option.some.injEq] at hb'
          have := hjunction a ha last (by simp)
          rw [← hb']
          exact this
      · -- `start_node_id` still names the head node
        have hne : st.start_node_id ≠ none := by
          rw [hinv.start, hconcat]
          cases l <;> simp
        rw [hstarteq, if_neg hne, hinv.start, hnodes, hconcat]
        cases l <;> simp
      · rw [hpreveq, hnodes]
        rw [show l ++ [{ last with next := some node.id }, node] =
          (l ++ [{ last with next := some node.id }]) ++ [node] by simp]
        simp
      · intro n hn
        rw [hnodes] at hn
        rcases List.mem_append.mp hn with h | h
        · exact hinv.tagged n
            (by rw [hconcat, List.concat_eq_append]; exact List.mem_append.mpr (Or.inl h))
        · rcases List.mem_cons.mp h with rfl | h'
          · exact wellTagged_setNext last (some node.id)
              (hinv.tagged last hlast_mem)
          · simp only [List.mem_singleton] at h'
            exact h' ▸ htag
    · rw [hnodes, hconcat]
      simp

theorem except_bind_ok {α β : Type} (a : α) (f : α → Except String β) :
    (Except.ok a >>= f) = f a := rfl

theorem except_bind_error {α β : Type} (e : String)
    (f : α → Except String β) :
    ((Except.error e : Except String α) >>= f) = Except.error e := rfl

/-- One loop iteration preserves the invariant and appends exactly the row's
tag (when it has one) to the node-type trace. -/
theorem convStep_spec (st : ConvState) (row : List String) (st' : ConvState)
    (h : convStep st row = .ok st') (hinv : ConvInv st) :
    ConvInv st' ∧ st'.nodes.map (·.type) =
      st.nodes.map (·.type) ++ (rowTag row).toList := by
  cases row with
  | nil =>
    replace h : st = st' := by simpa [convStep] using h
    subst h
    simpa [rowTag] using hinv
  | cons c0 rest =>
    simp only [convStep, List.head?_cons, List.tail_cons] at h
    by_cases hblank : pyStrip c0 = ""
    · rw [if_pos hblank] at h
      replace h : st = st' := by simpa using h
      subst h
      simpa [rowTag, List.head?_cons, if_pos hblank] using hinv
    · rw [if_neg hblank, if_neg (indent_cond_false c0 hblank)] at h
      have htagrow : rowTag (c0 :: rest) =
          (if pyLower (pyStrip c0) = "*" ∨ pyLower (pyStrip c0) = "point"
            then some "point"
          else if pyLower (pyStrip c0) = "@" ∨ pyLower (pyStrip c0) = "label"
            then some "label"
          else if pyLower (pyStrip c0) = ">" ∨ pyLower (pyStrip c0) = "jump" ∨
              pyLower (pyStrip c0) = "goto" then some "jump"
          else if pyLower (pyStrip c0) = "$" ∨ pyLower (pyStrip c0) = "setting"
            then some "setting"
          else none) := by
        simp only [rowTag, List.head?_cons, if_neg hblank]
      by_cases hpt : pyLower (pyStrip c0) = "*" ∨ pyLower (pyStrip c0) = "point"
      · rw [if_pos hpt] at h
        rcases hx : floatOfParam (dictGet (parse_params rest) "x") with ex | xv
        · rw [hx, except_bind_error] at h; exact absurd h (by simp)
        rw [hx, except_bind_ok] at h
        rcases hy : floatOfParam (dictGet (parse_params rest) "y") with ey | yv
        · rw [hy, except_bind_error] at h; exact absurd h (by simp)
        rw [hy, except_bind_ok] at h
        rcases hf : intOfParam (dictGet (parse_params rest) "frequency") 1
          with ef | fv
        · rw [hf, except_bind_error] at h; exact absurd h (by simp)
        rw [hf, except_bind_ok] at h
        replace h := Except.ok.inj h
        subst h
        rw [htagrow, if_pos hpt]
        exact pushNode_inv st _ true hinv rfl rfl rfl
      · rw [if_neg hpt] at h
        by_cases hlb : pyLower (pyStrip c0) = "@" ∨ pyLower (pyStrip c0) = "label"
        · rw [if_pos hlb] at h
          replace h := Except.ok.inj h
          subst h
          rw [htagrow, if_neg hpt, if_pos hlb]
          exact pushNode_inv st _ false hinv rfl rfl rfl
        · rw [if_neg hlb] at h
          by_cases hjp : pyLower (pyStrip c0) = ">" ∨
              pyLower (pyStrip c0) = "jump" ∨ pyLower (pyStrip c0) = "goto"
          · rw [if_pos hjp] at h
            rcases hf : intOfParam (dictGet (parse_params rest) "frequency") 1
              with ef | fv
            · rw [hf, except_bind_error] at h; exact absurd h (by simp)
            rw [hf, except_bind_ok] at h
            replace h := Except.ok.inj h
            subst h
            rw [htagrow, if_neg hpt, if_neg hlb, if_pos hjp]
            exact pushNode_inv st _ false hinv rfl rfl rfl
          · rw [if_neg hjp] at h
            by_cases hst : pyLower (pyStrip c0) = "$" ∨
                pyLower (pyStrip c0) = "setting"
            · rw [if_pos hst] at h
              replace h := Except.ok.inj h
              subst h
              rw [htagrow, if_neg hpt, if_neg hlb, if_neg hjp, if_pos hst]
              exact pushNode_inv st _ false hinv rfl rfl rfl
            · rw [if_neg hst] at h
              replace h := Except.ok.inj h
              subst h
              rw [htagrow, if_neg hpt, if_neg hlb, if_neg hjp, if_neg hst]
              refine ⟨⟨?_, hinv.chain, hinv.start, hinv.prev, hinv.tagged⟩, by simp⟩
              obtain ⟨ks, hks, hmap, hbound⟩ := hinv.ids
              exact ⟨ks, hks, hmap, fun k hk => by
                have := hbound k hk
                show k < st.node_counter + 1
                omega⟩

/-- The whole row loop: invariant in, invariant out, and the node-type trace
is exactly the tags of the recognized declaration rows in order. -/
theorem foldlM_convStep_spec :
    ∀ (rows : List (List String)) (st st' : ConvState),
      rows.foldlM convStep st = .ok st' → ConvInv st →
      ConvInv st' ∧ st'.nodes.map (·.type) =
        st.nodes.map (·.type) ++ rows.filterMap rowTag := by
  intro rows
  induction rows with
  | nil =>
    intro st st' h hinv
    rw [List.foldlM_nil] at h
    replace h := Except.ok.inj (show Except.ok st = Except.ok st' from h)
    subst h
    exact ⟨hinv, by simp⟩
  | cons row rest ih =>
    intro st st' h hinv
    rw [List.foldlM_cons] at h
    rcases hs : convStep st row with e | st₁
    · rw [hs, except_bind_error] at h
      exact absurd h (by simp)
    · rw [hs, except_bind_ok] at h
      obtain ⟨hinv₁, htr₁⟩ := convStep_spec st row st₁ hs hinv
      obtain ⟨hinv', htr'⟩ := ih st₁ st' h hinv₁
      refine ⟨hinv', ?_⟩
      rw [htr', htr₁, List.filterMap_cons]
      cases rowTag row <;> simp

/-- **C8.** A successful `csv_to_json` yields nodes whose synthetic ids are
`node_<counter>` for a strictly increasing (never reused) counter sequence,
whose `next` fields form the unbroken declaration-order chain, whose types
are exactly the tags of the recognized declaration rows in file order
(command rows produce no node and never alter the chaining), and whose
`start_node` is the first declaration node's id. -/
theorem csv_declaration_chain (lines : List String) (flow : RoutineFlow)
    (h : csv_to_json lines = .ok flow) :
    (∃ ks : List Nat, List.Chain' (· < ·) ks ∧
      flow.nodes.map (·.id) = ks.map mkNodeId) ∧
    List.Chain' (fun a b => a.next = some b.id) flow.nodes ∧
    flow.nodes.map (·.type) = (lines.map csvReadLine).filterMap rowTag ∧
    (∀ n, flow.nodes.head? = some n → flow.start_node = n.id) := by
  unfold csv_to_json at h
  rcases hrun : runRows (lines.map csvReadLine) with e | st
  · rw [hrun, except_bind_error] at h
    exact absurd h (by simp)
  rw [hrun, except_bind_ok] at h
  replace h := Except.ok.inj h
  obtain ⟨hinv, htrace⟩ :=
    foldlM_convStep_spec (lines.map csvReadLine) ConvState.init st hrun
      convInv_init
  obtain ⟨ks, hks, hmap, -⟩ := hinv.ids
  have hnodes : flow.nodes = st.nodes := by rw [← h]
  refine ⟨⟨ks, hks, by rw [hnodes]; exact hmap⟩,
    by rw [hnodes]; exact hinv.chain,
    by rw [hnodes, htrace]; rfl, ?_⟩
  intro n hn
  rw [hnodes] at hn
  rcases hcons : st.nodes with _ | ⟨m, t⟩
  · rw [hcons] at hn; exact absurd hn (by simp)
  · rw [hcons] at hn
    simp only [List.head?_cons, Option.some.injEq] at hn
    subst hn
    have hstart : st.start_node_id = some m.id := by
      rw [hinv.start, hcons]; rfl
    have hexk : ∃ k, m.id = mkNodeId k := by
      rw [hcons] at hmap
      cases ks with
      | nil => exact absurd hmap (by simp)
      | cons k ks' =>
        refine ⟨k, ?_⟩
        simpa using congrArg List.head? hmap
    obtain ⟨k, hk⟩ := hexk
    have hne : m.id ≠ "" := hk ▸ mkNodeId_ne_empty k
    have hfalsy : optStrFalsy st.start_node_id = false := by
      rw [hstart]
      simpa [optStrFalsy] using hne
    rw [← h]
    show (match (match st.nodes with
      | [] => st.start_node_id
      | n' :: _ =>
        if optStrFalsy st.start_node_id then some n'.id
        else st.start_node_id) with
      | none => "node_0"
      | some s => if s = "" then "node_0" else s) = m.id
    have hfalsy' : optStrFalsy (some m.id) = false := by
      simpa [optStrFalsy] using hne
    rw [hcons]
    simp only [hstart, hfalsy', Bool.false_eq_true, if_false]
    exact if_neg hne

instance : DecidableEq (Except String RoutineFlow) := fun a b =>
  match a, b with
  | .ok x, .ok y =>
    if h : x = y then .isTrue (by rw [h]) else .isFalse (by simp [h])
  | .error x, .error y =>
    if h : x = y then .isTrue (by rw [h]) else .isFalse (by simp [h])
  | .ok _, .error _ => .isFalse (by simp)
  | .error _, .ok _ => .isFalse (by simp)

/-- The routine the embedded `csv_to_json` produces from the specification's
§8 example (four declaration rows; the indented command rows are dropped and
consume counter values 1 and 3). -/
def specExampleFlow : RoutineFlow :=
  { metadata := convMetadata,
    nodes :=
      [{ id := "node_0", type := "point", editor_position := ⟨pf 100, pf 100⟩,
         next := some "node_2",
         kind := .point ⟨pf 100, pf 200⟩ [] 1 false false },
       { id := "node_2", type := "point", editor_position := ⟨pf 300, pf 100⟩,
         next := some "node_4",
         kind := .point ⟨pf 300, pf 200⟩ [] 2 false false },
       { id := "node_4", type := "label", editor_position := ⟨pf 500, pf 100⟩,
         next := some "node_5", kind := .label "main_loop" },
       { id := "node_5", type := "jump", editor_position := ⟨pf 700, pf 100⟩,
         next := none, kind := .jump "main_loop" 1 false }],
    start_node := "node_0" }

/-- Witness for C8 at the specification's §8 example. -/
theorem csv_declaration_chain_witness :
    (∃ ks : List Nat, List.Chain' (· < ·) ks ∧
      specExampleFlow.nodes.map (·.id) = ks.map mkNodeId) ∧
    List.Chain' (fun a b => a.next = some b.id) specExampleFlow.nodes ∧
    specExampleFlow.nodes.map (·.type) =
      (specExampleLines.map csvReadLine).filterMap rowTag ∧
    (∀ n, specExampleFlow.nodes.head? = some n →
      specExampleFlow.start_node = n.id) :=
  csv_declaration_chain specExampleLines specExampleFlow (by decide)

/-! ## The tag invariant (C9) -/

/-- Every node `parseNode` returns satisfies the tag invariant (the
dispatched constructors force their tag, and base nodes are
unconstrained). -/
theorem parseNode_wellTagged (e : NodeEntry) (n : RoutineNode)
    (h : parseNode e = .ok n) : WellTagged n := by
  unfold parseNode at h
  split_ifs at h with h1 h2 h3 h4 <;>
    [unfold PointNode.from_dict at h; unfold LabelNode.from_dict at h;
     unfold JumpNode.from_dict at h; unfold SettingNode.from_dict at h;
     unfold RoutineNode.from_dict at h] <;>
    split_ifs at h <;>
    first
    | exact Except.noConfusion h
    | (injection h with h'; subst h'; first | exact rfl | trivial)

/-- Each node of a successful `mapM parseNode` is some entry's parse. -/
theorem mapM_parseNode_members :
    ∀ (entries : List NodeEntry) (ns : List RoutineNode),
      entries.mapM parseNode = .ok ns →
      ∀ n ∈ ns, ∃ e, parseNode e = .ok n := by
  intro entries
  induction entries with
  | nil =>
    intro ns h n hn
    rw [List.mapM_nil] at h
    replace h := Except.ok.inj (show Except.ok [] = Except.ok ns from h)
    subst h
    exact absurd hn (List.not_mem_nil n)
  | cons e rest ih =>
    intro ns h n hn
    rw [List.mapM_cons] at h
    rcases he : parseNode e with er | v
    · rw [he, except_bind_error] at h
      exact absurd h (by simp)
    rw [he, except_bind_ok] at h
    rcases hr : rest.mapM parseNode with er | vs
    · rw [hr, except_bind_error] at h
      exact absurd h (by simp)
    rw [hr, except_bind_ok] at h
    replace h := Except.ok.inj (show Except.ok (v :: vs) = Except.ok ns from h)
    subst h
    rcases List.mem_cons.mp hn with rfl | hn'
    · exact ⟨e, he⟩
    · exact ih vs hr n hn'

/-- Members of `setNextFirst` are original nodes or one original node with
only its `next` reassigned. -/
theorem setNextFirst_mem (a b : String) :
    ∀ (l : List RoutineNode) (n : RoutineNode), n ∈ setNextFirst l a b →
      n ∈ l ∨ ∃ m ∈ l, n = { m with next := some b } := by
  intro l
  induction l with
  | nil => intro n hn; exact absurd hn (List.not_mem_nil n)
  | cons x rest ih =>
    intro n hn
    by_cases hx : x.id = a
    · rw [setNextFirst, if_pos hx] at hn
      rcases List.mem_cons.mp hn with rfl | hn'
      · exact Or.inr ⟨x, List.mem_cons_self x rest, rfl⟩
      · exact Or.inl (List.mem_cons_of_mem x hn')
    · rw [setNextFirst, if_neg hx] at hn
      rcases List.mem_cons.mp hn with rfl | hn'
      · exact Or.inl (List.mem_cons_self n rest)
      · rcases ih n hn' with h | ⟨m, hm, hnm⟩
        · exact Or.inl (List.mem_cons_of_mem x h)
        · exact Or.inr ⟨m, List.mem_cons_of_mem x hm, hnm⟩

/-- **C9.** Each subclass constructor forces its `type` tag no matter which
tag was passed (`__post_init__`), and every node produced by the model's
operations — CSV conversion, deserialization, and the mutating operations
applied to well-tagged routines — carries the tag matching its variant. -/
theorem node_tags_invariant :
    (∀ (i ty : String) (pos : NodePosition) (nx : Option String)
        (gp : GamePosition) (cmds : List CommandData) (freq : Int)
        (sk adj : Bool),
      (PointNode.make i ty pos nx gp cmds freq sk adj).type = "point") ∧
    (∀ (i ty : String) (pos : NodePosition) (nx : Option String)
        (lab : String), (LabelNode.make i ty pos nx lab).type = "label") ∧
    (∀ (i ty : String) (pos : NodePosition) (nx : Option String)
        (target : String) (freq : Int) (sk : Bool),
      (JumpNode.make i ty pos nx target freq sk).type = "jump") ∧
    (∀ (i ty : String) (pos : NodePosition) (nx : Option String)
        (key : String) (value : Option String),
      (SettingNode.make i ty pos nx key value).type = "setting") ∧
    (∀ (lines : List String) (flow : RoutineFlow),
      csv_to_json lines = .ok flow → ∀ n ∈ flow.nodes, WellTagged n) ∧
    (∀ (d : FlowEntry) (flow : RoutineFlow),
      RoutineFlow.from_dict d = .ok flow → ∀ n ∈ flow.nodes, WellTagged n) ∧
    (∀ (r : RoutineFlow) (nid : String), (∀ m ∈ r.nodes, WellTagged m) →
      ∀ n ∈ (r.remove_node nid).nodes, WellTagged n) ∧
    (∀ (r : RoutineFlow) (a b : String), (∀ m ∈ r.nodes, WellTagged m) →
      ∀ n ∈ (r.connect_nodes a b).nodes, WellTagged n) ∧
    (∀ (r : RoutineFlow) (node : RoutineNode),
      (∀ m ∈ r.nodes, WellTagged m) → WellTagged node →
      ∀ n ∈ (r.add_node node).nodes, WellTagged n) := by
  refine ⟨fun _ _ _ _ _ _ _ _ _ => rfl, fun _ _ _ _ _ => rfl,
    fun _ _ _ _ _ _ _ => rfl, fun _ _ _ _ _ _ => rfl, ?_, ?_, ?_, ?_, ?_⟩
  · -- csv_to_json
    intro lines flow h n hn
    unfold csv_to_json at h
    rcases hrun : runRows (lines.map csvReadLine) with e | st
    · rw [hrun, except_bind_error] at h
      exact absurd h (by simp)
    rw [hrun, except_bind_ok] at h
    replace h := Except.ok.inj h
    obtain ⟨hinv, -⟩ :=
      foldlM_convStep_spec (lines.map csvReadLine) ConvState.init st hrun
        convInv_init
    have : flow.nodes = st.nodes := by rw [← h]
    exact hinv.tagged n (this ▸ hn)
  · -- from_dict
    intro d flow h n hn
    unfold RoutineFlow.from_dict at h
    rcases hm : d.nodes.mapM parseNode with er | ns
    · rw [hm, except_bind_error] at h
      exact absurd h (by simp)
    rw [hm, except_bind_ok] at h
    replace h := Except.ok.inj h
    have hns : flow.nodes = ns := by rw [← h]
    obtain ⟨e, he⟩ := mapM_parseNode_members d.nodes ns hm n (hns ▸ hn)
    exact parseNode_wellTagged e n he
  · -- remove_node
    intro r nid hall n hn
    simp only [RoutineFlow.remove_node, List.mem_map, List.mem_filter] at hn
    obtain ⟨m, ⟨hm, -⟩, rfl⟩ := hn
    by_cases hnext : m.next = some nid
    · simp only [if_pos hnext]
      exact wellTagged_setNext m none (hall m hm)
    · simp only [if_neg hnext]
      exact hall m hm
  · -- connect_nodes
    intro r a b hall n hn
    rcases setNextFirst_mem a b r.nodes n hn with h | ⟨m, hm, rfl⟩
    · exact hall n h
    · exact wellTagged_setNext m (some b) (hall m hm)
  · -- add_node
    intro r node hall htag n hn
    rcases List.mem_append.mp hn with h | h
    · exact hall n h
    · simp only [List.mem_singleton] at h
      exact h ▸ htag

end AutonMaple
